import Mathlib

/-!
Shallow embedding of the multi-exchange order-book logger
(`src/utils/agg.py`, `src/logger.py`, `src/adapters/*.py`).

Modelling conventions:
* Python floats are modelled as exact rationals (`ℚ`); `None` as `Option.none`.
* A Python function that can raise is modelled as `Option`-valued; `none`
  means the call raises.
* Python dicts keyed by strings are modelled as functions `String → Option _`;
  `self.state[k] = None` and a missing key are conflated, which is faithful
  because the code only reads `self.state` through `dict.get`.
* `datetime.fromisoformat` is modelled on the sub-grammar
  `YYYY-MM-DD[<sep>HH[:MM[:SS[.frac]]]][±HH:MM]` (one arbitrary separator
  character, as in CPython 3.11), with the constructor's range checks.
-/

/-- Characters of a string; all parsing is structural recursion over this. -/
def chars (s : String) : List Char := s.data

def isDigitCh (c : Char) : Bool := decide ('0' ≤ c) && decide (c ≤ '9')

def digitVal (c : Char) : Nat := c.toNat - '0'.toNat

/-- Read exactly `k` decimal digits, returning the value and the rest. -/
def readDigits (acc : Nat) : Nat → List Char → Option (Nat × List Char)
  | 0, cs => some (acc, cs)
  | k + 1, [] => (fun _ => none) k
  | k + 1, c :: cs =>
      if isDigitCh c then readDigits (acc * 10 + digitVal c) k cs else none

/-- Consume one expected character. -/
def expectCh (ch : Char) : List Char → Option (List Char)
  | [] => none
  | c :: cs => if c = ch then some cs else none

/-- Take the leading run of decimal digits. -/
def takeDigits : List Char → (List Char × List Char)
  | [] => ([], [])
  | c :: cs =>
      if isDigitCh c then
        let r := takeDigits cs
        (c :: r.1, r.2)
      else ([], c :: cs)

def digitsToNat (ds : List Char) : Nat := ds.foldl (fun a c => a * 10 + digitVal c) 0

/-- Value of a fractional-second digit string in microseconds
(digits beyond the sixth are truncated, as in CPython). -/
def fracToMicro (ds : List Char) : Nat :=
  let ds6 := ds.take 6
  digitsToNat ds6 * 10 ^ (6 - ds6.length)

def isLeapYear (y : Nat) : Bool :=
  (y % 4 = 0 && !(y % 100 = 0)) || (y % 400 = 0)

def daysInMonth (y m : Nat) : Nat :=
  if m = 2 then (if isLeapYear y then 29 else 28)
  else if m = 4 ∨ m = 6 ∨ m = 9 ∨ m = 11 then 30
  else 31

/-- A parsed `datetime`: clock fields plus an optional fixed offset in
minutes (`none` = naive datetime). -/
structure DT where
  year : Nat
  month : Nat
  day : Nat
  hour : Nat
  minute : Nat
  second : Nat
  microsecond : Nat
  offset : Option Int
deriving DecidableEq, Repr

/-- Parse the optional time-of-day part `HH[:MM[:SS[.frac]]]`. -/
def readTime (cs : List Char) : Option (Nat × Nat × Nat × Nat × List Char) := do
  let (h, r) ← readDigits 0 2 cs
  match r with
  | ':' :: r1 => do
      let (mi, r2) ← readDigits 0 2 r1
      match r2 with
      | ':' :: r3 => do
          let (s, r4) ← readDigits 0 2 r3
          match r4 with
          | '.' :: r5 =>
              let (ds, r6) := takeDigits r5
              if ds = [] then none else some (h, mi, s, fracToMicro ds, r6)
          | _ => some (h, mi, s, 0, r4)
      | _ => some (h, mi, 0, 0, r2)
  | _ => some (h, 0, 0, 0, r)

/-- Parse the optional trailing UTC offset `±HH:MM` (result in minutes). -/
def readOffset : List Char → Option (Option Int)
  | [] => some none
  | c :: cs =>
      if c = '+' ∨ c = '-' then do
        let (oh, r1) ← readDigits 0 2 cs
        let r2 ← expectCh ':' r1
        let (om, r3) ← readDigits 0 2 r2
        if r3 = [] ∧ oh ≤ 23 ∧ om ≤ 59 then
          some (some ((if c = '-' then -1 else 1) * (oh * 60 + om : Nat)))
        else none
      else none

/-- Model of `datetime.fromisoformat` on the embedded sub-grammar,
including the `datetime` constructor's range validation. -/
def fromisoformat (s : String) : Option DT := do
  let (y, r1) ← readDigits 0 4 (chars s)
  let r2 ← expectCh '-' r1
  let (mo, r3) ← readDigits 0 2 r2
  let r4 ← expectCh '-' r3
  let (d, r5) ← readDigits 0 2 r4
  let (h, mi, sec, micro, off) ←
    match r5 with
    | [] => some (0, 0, 0, 0, (none : Option Int))
    | _sep :: r6 => do
        let (h, mi, sec, micro, r7) ← readTime r6
        let off ← readOffset r7
        some (h, mi, sec, micro, off)
  if 1 ≤ y ∧ 1 ≤ mo ∧ mo ≤ 12 ∧ 1 ≤ d ∧ d ≤ daysInMonth y mo ∧
     h ≤ 23 ∧ mi ≤ 59 ∧ sec ≤ 59 then
    some ⟨y, mo, d, h, mi, sec, micro, off⟩
  else none

/-- Model of Python `ts.replace("Z", "+00:00")` (every occurrence). -/
def replaceZ : List Char → List Char
  | [] => []
  | c :: cs =>
      if c = 'Z' then '+' :: '0' :: '0' :: ':' :: '0' :: '0' :: replaceZ cs
      else c :: replaceZ cs

/-- `datetime.fromisoformat(ts_iso.replace("Z", "+00:00"))`. -/
def parseTs (ts_iso : String) : Option DT :=
  fromisoformat (String.mk (replaceZ (chars ts_iso)))

def pad2 (n : Nat) : String := (if n < 10 then "0" else "") ++ toString n

def pad4 (n : Nat) : String :=
  (if n < 10 then "000" else if n < 100 then "00" else if n < 1000 then "0" else "")
    ++ toString n

/-- `t.replace(second=0, microsecond=0, tzinfo=utc).isoformat().replace("+00:00","Z")`:
the clock fields truncated to the whole minute, relabelled as UTC.  Note the
source *replaces* the tzinfo instead of converting to UTC, so the offset of
the parsed timestamp is discarded. -/
def bucketFmt (d : DT) : String :=
  pad4 d.year ++ "-" ++ pad2 d.month ++ "-" ++ pad2 d.day ++ "T" ++
    pad2 d.hour ++ ":" ++ pad2 d.minute ++ ":00Z"

/-- `minute_bucket` from `src/utils/agg.py` (`none` = the `ValueError`
raised by `fromisoformat` on a malformed timestamp). -/
def minute_bucket (ts_iso : String) : Option String :=
  (parseTs ts_iso).map bucketFmt

/-- Days since 1970-01-01 of a civil date (standard days-from-civil
computation); used only to give meaning to "same UTC minute". -/
def dayNumber (y m d : Nat) : Int :=
  let yi : Int := if m ≤ 2 then (y : Int) - 1 else (y : Int)
  let era : Int := (if 0 ≤ yi then yi else yi - 399) / 400
  let yoe : Int := yi - era * 400
  let mp : Int := if 2 < m then (m : Int) - 3 else (m : Int) + 9
  let doy : Int := (153 * mp + 2) / 5 + (d : Int) - 1
  let doe : Int := yoe * 365 + yoe / 4 - yoe / 100 + doy
  era * 146097 + doe - 719468

/-- Index of the UTC minute in which a parsed timestamp's instant lies
(a naive timestamp is read as UTC).  Offsets are whole minutes, so the
second/microsecond fields never shift the UTC minute boundary. -/
def utcMinuteIndex (d : DT) : Int :=
  dayNumber d.year d.month d.day * 1440 + d.hour * 60 + d.minute - (d.offset.getD 0)

/-! ## `MinuteAverager` (`src/utils/agg.py`) -/

/-- One finalized per-minute entry (the dict built by `_finalize`). -/
structure AverageRecord where
  t : String
  exchange : String
  asset : String
  price_avg : ℚ
  spread_raw_avg : ℚ
  spread_L5_pct_avg : ℚ
  spread_L20_pct_avg : ℚ
  spread_L50_pct_avg : ℚ
  spread_L100_pct_avg : ℚ
  bid_volume_L50_avg : ℚ
  ask_volume_L50_avg : ℚ
deriving DecidableEq, Repr

/-- The in-progress accumulator built by `_start` and mutated by `_update`. -/
structure AccState where
  key : String
  exchange : String
  asset : String
  n : Nat
  price_sum : ℚ
  spread_raw_sum : ℚ
  s5_sum : ℚ
  s20_sum : ℚ
  s50_sum : ℚ
  s100_sum : ℚ
  bidv50_sum : ℚ
  askv50_sum : ℚ
deriving DecidableEq, Repr

/-- `_start`: every sum is seeded with `v(x) or 0.0`, i.e. a null (or zero)
value becomes `0.0`; the tick count starts at 1. -/
def AccState.start (key exchange asset : String)
    (price spread_raw s5 s20 s50 s100 bidv50 askv50 : Option ℚ) : AccState :=
  ⟨key, exchange, asset, 1,
   price.getD 0, spread_raw.getD 0, s5.getD 0, s20.getD 0,
   s50.getD 0, s100.getD 0, bidv50.getD 0, askv50.getD 0⟩

/-- The inner `add(k, x)` of `_update`: a null value is skipped. -/
def addOpt (s : ℚ) : Option ℚ → ℚ
  | none => s
  | some x => s + x

/-- `_update`: `n` is always incremented; each non-null value is added to
its running sum. -/
def AccState.update (st : AccState)
    (price spread_raw s5 s20 s50 s100 bidv50 askv50 : Option ℚ) : AccState :=
  { st with
    n := st.n + 1
    price_sum := addOpt st.price_sum price
    spread_raw_sum := addOpt st.spread_raw_sum spread_raw
    s5_sum := addOpt st.s5_sum s5
    s20_sum := addOpt st.s20_sum s20
    s50_sum := addOpt st.s50_sum s50
    s100_sum := addOpt st.s100_sum s100
    bidv50_sum := addOpt st.bidv50_sum bidv50
    askv50_sum := addOpt st.askv50_sum askv50 }

/-- The divisor `n = max(1, st["n"])` used by `_finalize`. -/
def finalizeDen (st : AccState) : Nat := max 1 st.n

/-- `_finalize`: every running sum is divided by the one shared divisor. -/
def AccState.finalize (st : AccState) : AverageRecord :=
  let n : ℚ := (finalizeDen st : Nat)
  ⟨st.key, st.exchange, st.asset,
   st.price_sum / n, st.spread_raw_sum / n, st.s5_sum / n, st.s20_sum / n,
   st.s50_sum / n, st.s100_sum / n, st.bidv50_sum / n, st.askv50_sum / n⟩

/-- `self.series[asset] = self.series[asset][-1440:]` applied after an
append whenever the list exceeds 1440 entries. -/
def truncate1440 (l : List AverageRecord) : List AverageRecord :=
  if 1440 < l.length then l.drop (l.length - 1440) else l

/-- The two dicts of a `MinuteAverager`: `self.state` (key → in-progress
accumulator) and `self.series` (key → finalized minute entries). -/
structure MinuteAverager where
  state : String → Option AccState
  series : String → Option (List AverageRecord)

/-- `MinuteAverager.__init__`: both dicts empty. -/
def MinuteAverager.empty : MinuteAverager := ⟨fun _ => none, fun _ => none⟩

/-- `MinuteAverager.add`.  `none` models the exception propagated out of
`minute_bucket` on a malformed timestamp (raised before any mutation).
The dict key for both `state` and `series` is the `asset` argument. -/
def MinuteAverager.add (m : MinuteAverager) (exchange asset ts_iso : String)
    (price spread_raw s5 s20 s50 s100 bidv50 askv50 : Option ℚ) :
    Option MinuteAverager :=
  match minute_bucket ts_iso with
  | none => none
  | some key =>
    -- `if asset not in self.series: self.series[asset] = []`
    let ser0 : List AverageRecord := (m.series asset).getD []
    match m.state asset with
    | none =>
        some ⟨fun k => if k = asset then
                some (AccState.start key exchange asset price spread_raw s5 s20 s50 s100 bidv50 askv50)
              else m.state k,
              fun k => if k = asset then some ser0 else m.series k⟩
    | some st =>
        if st.key = key then
          some ⟨fun k => if k = asset then
                  some (st.update price spread_raw s5 s20 s50 s100 bidv50 askv50)
                else m.state k,
                fun k => if k = asset then some ser0 else m.series k⟩
        else
          -- rollover: finalize the previous minute, cap the series, start anew
          let ser1 := truncate1440 (ser0 ++ [st.finalize])
          some ⟨fun k => if k = asset then
                  some (AccState.start key exchange asset price spread_raw s5 s20 s50 s100 bidv50 askv50)
                else m.state k,
                fun k => if k = asset then some ser1 else m.series k⟩

/-- `MinuteAverager.replace_series`: installs `rows` verbatim and sets the
key's accumulator to `None`. -/
def MinuteAverager.replace_series (m : MinuteAverager) (asset : String)
    (rows : List AverageRecord) : MinuteAverager :=
  ⟨fun k => if k = asset then none else m.state k,
   fun k => if k = asset then some rows else m.series k⟩

/-- The per-tick argument bundle of one `add` call. -/
structure Tick where
  ts : String
  price : Option ℚ
  spread_raw : Option ℚ
  s5 : Option ℚ
  s20 : Option ℚ
  s50 : Option ℚ
  s100 : Option ℚ
  bidv50 : Option ℚ
  askv50 : Option ℚ
deriving DecidableEq, Repr

def MinuteAverager.addTick (m : MinuteAverager) (exchange asset : String)
    (t : Tick) : Option MinuteAverager :=
  m.add exchange asset t.ts t.price t.spread_raw t.s5 t.s20 t.s50 t.s100 t.bidv50 t.askv50

def AccState.startTick (key exchange asset : String) (t : Tick) : AccState :=
  AccState.start key exchange asset t.price t.spread_raw t.s5 t.s20 t.s50 t.s100 t.bidv50 t.askv50

def AccState.updateTick (st : AccState) (t : Tick) : AccState :=
  st.update t.price t.spread_raw t.s5 t.s20 t.s50 t.s100 t.bidv50 t.askv50

/-- One operation against the aggregator. -/
inductive Op
  | add (exchange asset : String) (t : Tick)
  | replace (asset : String) (rows : List AverageRecord)

/-- Apply one operation; an `add` whose timestamp fails to parse raises
before mutating anything, leaving the state unchanged. -/
def stepOp (m : MinuteAverager) : Op → MinuteAverager
  | .add ex a t => (m.addTick ex a t).getD m
  | .replace a rows => m.replace_series a rows

/-- Run a sequence of operations from a fresh `MinuteAverager`. -/
def runOps (ops : List Op) : MinuteAverager := ops.foldl stepOp MinuteAverager.empty

/-- Fold a list of `add` calls for one (exchange, asset) pair. -/
def addsFrom (m : MinuteAverager) (exchange asset : String) (ts : List Tick) :
    MinuteAverager :=
  ts.foldl (fun m t => (m.addTick exchange asset t).getD m) m

/-- Sum of the non-null values of a list of optional metrics. -/
def sumOpt (xs : List (Option ℚ)) : ℚ := (xs.filterMap id).sum

/-! ## Logger helpers (`src/logger.py`) -/

/-- `layered_avg_spread(bids, asks, depth)`: `d = min(depth, len(bids),
len(asks))`; `None` if `d == 0`, else the mean over `i in range(d)` of
`asks[i][0] - bids[i][0]`. -/
def layered_avg_spread (bids asks : List (ℚ × ℚ)) (depth : Nat) : Option ℚ :=
  let d := min depth (min bids.length asks.length)
  if d = 0 then none
  else some ((((List.range d).map
    (fun i => (asks.getD i (0, 0)).1 - (bids.getD i (0, 0)).1)).sum) / (d : ℚ))

/-- The series key `f"{ex_name}:{asset}"` used by `init_day` (seeding via
`replace_series`) and by the periodic upload read in `src/logger.py`. -/
def seriesKey (ex_name asset : String) : String := ex_name ++ ":" ++ asset

/-- `init_day`'s seeding of one key:
`minute.replace_series(f"{ex_name}:{asset}", existing)`. -/
def initDaySeed (m : MinuteAverager) (ex_name asset : String)
    (existing : List AverageRecord) : MinuteAverager :=
  m.replace_series (seriesKey ex_name asset) existing

/-- The periodic upload's read of one key:
`rows = minute.series.get(f"{ex_name}:{asset}", [])`. -/
def uploadRows (m : MinuteAverager) (ex_name asset : String) : List AverageRecord :=
  (m.series (seriesKey ex_name asset)).getD []

/-! ## Adapters (`src/adapters/*.py`)

Each adapter's deterministic normalization step, after transport and JSON
float conversion have produced the raw `(price, size)` level lists.
Python's stable `list.sort` is modelled as an insertion sort by the same
key order. -/

def insertLe {α : Type} (le : α → α → Bool) (x : α) : List α → List α
  | [] => [x]
  | y :: ys => if le x y then x :: y :: ys else y :: insertLe le x ys

def sortLe {α : Type} (le : α → α → Bool) : List α → List α
  | [] => []
  | x :: xs => insertLe le x (sortLe le xs)

/-- `bids.sort(key=lambda x: x[0], reverse=True)`: descending by price. -/
def sortBids (l : List (ℚ × ℚ)) : List (ℚ × ℚ) :=
  sortLe (fun x y => decide (y.1 ≤ x.1)) l

/-- `asks.sort(key=lambda x: x[0])`: ascending by price. -/
def sortAsks (l : List (ℚ × ℚ)) : List (ℚ × ℚ) :=
  sortLe (fun x y => decide (x.1 ≤ y.1)) l

/-- The normalized order book dict returned by every adapter. -/
structure Book where
  price : Option ℚ
  best_bid : Option ℚ
  best_ask : Option ℚ
  bids : List (ℚ × ℚ)
  asks : List (ℚ × ℚ)
deriving DecidableEq, Repr

/-- `src/adapters/coinbase.py`: mid-price guarded by
`(best_bid is not None and best_ask is not None)`. -/
def coinbaseBook (bids asks : List (ℚ × ℚ)) : Book :=
  let bids := sortBids bids
  let asks := sortAsks asks
  let best_bid := bids.head?.map (·.1)
  let best_ask := asks.head?.map (·.1)
  let price : Option ℚ :=
    match best_bid, best_ask with
    | some b, some a => some ((b + a) / 2)
    | _, _ => none
  ⟨price, best_bid, best_ask, bids, asks⟩

/-- Python truthiness of an optional float: `None` and `0.0` are falsy. -/
def truthyQ : Option ℚ → Bool
  | none => false
  | some v => decide (v ≠ 0)

/-- `src/adapters/kraken.py`: mid-price guarded by the *truthiness* test
`(best_bid and best_ask)`, so a best price of `0.0` also yields `None`. -/
def krakenBook (bids asks : List (ℚ × ℚ)) : Book :=
  let bids := sortBids bids
  let asks := sortAsks asks
  let best_bid := bids.head?.map (·.1)
  let best_ask := asks.head?.map (·.1)
  let price : Option ℚ :=
    if truthyQ best_bid && truthyQ best_ask then
      some (((best_bid.getD 0) + (best_ask.getD 0)) / 2)
    else none
  ⟨price, best_bid, best_ask, bids, asks⟩

/-- `src/adapters/binanceus.py`: same truthiness guard
`if best_bid and best_ask` as kraken. -/
def binanceusBook (bids asks : List (ℚ × ℚ)) : Book :=
  let bids := sortBids bids
  let asks := sortAsks asks
  let best_bid := bids.head?.map (·.1)
  let best_ask := asks.head?.map (·.1)
  let price : Option ℚ :=
    if truthyQ best_bid && truthyQ best_ask then
      some (((best_bid.getD 0) + (best_ask.getD 0)) / 2)
    else none
  ⟨price, best_bid, best_ask, bids, asks⟩

/-! ## Auxiliary definitions used by the statements -/

/-- Number of finalized records currently held for a key
(a missing key reads as the empty list, as with `dict.get(k, [])`). -/
def seriesLen (m : MinuteAverager) (k : String) : Nat :=
  ((m.series k).getD []).length

/-- An operation is bounded when any `replace_series` it performs installs
at most 1440 rows. -/
def opBounded : Op → Prop
  | .add _ _ _ => True
  | .replace _ rows => rows.length ≤ 1440

/-- A sample finalized record (used as an opaque row value in tests of the
series plumbing; its field values are irrelevant). -/
def sampleRec : AverageRecord := ⟨"r", "e", "a", 0, 0, 0, 0, 0, 0, 0, 0⟩

/-- The `i`-th tick of the 61-tick scenario: one tick per second for asset
"ADA"; seconds 0..59 lie in minute 14:03, the 61st tick (second 60) is the
first of minute 14:04.  The first tick of each minute carries price 1, all
other metric values are null. -/
def tickC6 (i : Nat) : Tick :=
  if i < 60 then
    ⟨"2025-08-28T14:03:" ++ pad2 i ++ "Z",
     if i = 0 then some 1 else none, none, none, none, none, none, none, none⟩
  else
    ⟨"2025-08-28T14:04:00Z", some 1, none, none, none, none, none, none, none⟩

/-- The 61 ticks at one-second intervals spanning the minute boundary. -/
def ticksC6 : List Tick := (List.range 61).map tickC6

/-- The C1 scenario, mirroring `src/logger.py`: `init_day` seeds the
"exchange:asset" keys via `replace_series`, then the processing loop calls
`add(ex_name, asset, ...)` with the bare asset — one coinbase tick and one
kraken tick for "ADA" in the same minute. -/
def c1Run : MinuteAverager :=
  stepOp
    (stepOp
      (initDaySeed (initDaySeed MinuteAverager.empty "coinbase" "ADA" [sampleRec])
        "kraken" "ADA" [])
      (Op.add "coinbase" "ADA"
        ⟨"2025-08-28T14:03:07Z", some 100, none, none, none, none, none, none, none⟩))
    (Op.add "kraken" "ADA"
      ⟨"2025-08-28T14:03:08Z", none, none, none, none, none, none, none, none⟩)

/-! ## Helper lemmas -/

theorem addOpt_eq_getD (s : ℚ) (x : Option ℚ) : addOpt s x = s + x.getD 0 := by
  cases x <;> simp [addOpt]

theorem sumOpt_nil : sumOpt [] = 0 := rfl

theorem sumOpt_cons (x : Option ℚ) (xs : List (Option ℚ)) :
    sumOpt (x :: xs) = x.getD 0 + sumOpt xs := by
  cases x <;> simp [sumOpt, List.filterMap_cons]

/-- Closed form of folding `_update` over a list of ticks: the count grows
by the number of ticks, each sum by the non-null contributions. -/
theorem foldl_updateTick (rest : List Tick) : ∀ st : AccState,
    rest.foldl AccState.updateTick st =
      ⟨st.key, st.exchange, st.asset, st.n + rest.length,
       st.price_sum + sumOpt (rest.map (·.price)),
       st.spread_raw_sum + sumOpt (rest.map (·.spread_raw)),
       st.s5_sum + sumOpt (rest.map (·.s5)),
       st.s20_sum + sumOpt (rest.map (·.s20)),
       st.s50_sum + sumOpt (rest.map (·.s50)),
       st.s100_sum + sumOpt (rest.map (·.s100)),
       st.bidv50_sum + sumOpt (rest.map (·.bidv50)),
       st.askv50_sum + sumOpt (rest.map (·.askv50))⟩ := by
  induction rest with
  | nil => intro st; simp [sumOpt]
  | cons t ts ih =>
      intro st
      simp only [List.foldl_cons, ih, AccState.updateTick, AccState.update,
        List.map_cons, sumOpt_cons, List.length_cons, AccState.mk.injEq,
        addOpt_eq_getD]
      refine ⟨trivial, trivial, trivial, ?_, ?_, ?_, ?_, ?_, ?_, ?_, ?_, ?_⟩ <;> ring

/-- `add` on a key with no in-progress accumulator: a fresh accumulator is
started and the key's series is ensured to exist. -/
theorem addTick_fresh (m : MinuteAverager) (ex a key : String) (t : Tick)
    (hb : minute_bucket t.ts = some key) (hst : m.state a = none) :
    m.addTick ex a t =
      some ⟨fun k => if k = a then some (AccState.startTick key ex a t) else m.state k,
            fun k => if k = a then some ((m.series a).getD []) else m.series k⟩ := by
  simp [MinuteAverager.addTick, MinuteAverager.add, hb, hst, AccState.startTick]

/-- `add` on a key whose open accumulator is for the same minute: `_update`. -/
theorem addTick_same (m : MinuteAverager) (ex a key : String) (t : Tick)
    (st : AccState) (hb : minute_bucket t.ts = some key)
    (hst : m.state a = some st) (hkey : st.key = key) :
    m.addTick ex a t =
      some ⟨fun k => if k = a then some (st.updateTick t) else m.state k,
            fun k => if k = a then some ((m.series a).getD []) else m.series k⟩ := by
  simp [MinuteAverager.addTick, MinuteAverager.add, hb, hst, hkey, AccState.updateTick]

/-- `add` on a key whose open accumulator is for a different minute:
rollover (finalize, append, cap) and a fresh start. -/
theorem addTick_roll (m : MinuteAverager) (ex a key : String) (t : Tick)
    (st : AccState) (hb : minute_bucket t.ts = some key)
    (hst : m.state a = some st) (hkey : st.key ≠ key) :
    m.addTick ex a t =
      some ⟨fun k => if k = a then some (AccState.startTick key ex a t) else m.state k,
            fun k => if k = a then
                some (truncate1440 ((m.series a).getD [] ++ [st.finalize]))
              else m.series k⟩ := by
  simp [MinuteAverager.addTick, MinuteAverager.add, hb, hst, hkey, AccState.startTick]

/-- Running a sequence of same-minute `add` calls over an open accumulator
for that minute folds `_update` over the ticks and leaves the series alone. -/
theorem addsFrom_same_bucket (ex a key : String) (rest : List Tick)
    (hrest : ∀ t ∈ rest, minute_bucket t.ts = some key) :
    ∀ (m : MinuteAverager) (st : AccState) (l : List AverageRecord),
      m.state a = some st → st.key = key → m.series a = some l →
      (addsFrom m ex a rest).state a = some (rest.foldl AccState.updateTick st) ∧
      (addsFrom m ex a rest).series a = some l := by
  induction rest with
  | nil => intro m st l hst hkey hser; simpa [addsFrom] using ⟨hst, hser⟩
  | cons t ts ih =>
      intro m st l hst hkey hser
      have hb : minute_bucket t.ts = some key := hrest t (by simp)
      have hstep := addTick_same m ex a key t st hb hst hkey
      have hts : ∀ u ∈ ts, minute_bucket u.ts = some key := by
        intro u hu; exact hrest u (by simp [hu])
      simp only [addsFrom, List.foldl_cons, hstep, Option.getD_some]
      have h1 := ih hts
        ⟨fun k => if k = a then some (st.updateTick t) else m.state k,
         fun k => if k = a then some ((m.series a).getD []) else m.series k⟩
        (st.updateTick t) l (by simp) (by simp [AccState.updateTick, AccState.update, hkey])
        (by simp [hser])
      simpa [addsFrom] using h1

/-- The cap keeps at most 1440 records: its result has length
`min (len) 1440`. -/
theorem truncate1440_length (l : List AverageRecord) :
    (truncate1440 l).length = min l.length 1440 := by
  unfold truncate1440
  split <;> (rename_i h; simp [List.length_drop]; omega)

/-- The cap drops only from the front: its result is a suffix (the most
recent records) of the input. -/
theorem truncate1440_suffix (l : List AverageRecord) :
    List.IsSuffix (truncate1440 l) l := by
  unfold truncate1440
  split
  · exact List.drop_suffix _ _
  · exact List.suffix_rfl

/-- The single-minute scenario: from an empty aggregator, a first tick in
minute `key`, further ticks in the same minute, then one tick in a
different minute `key2`: the series receives exactly the finalized fold,
and the new open accumulator is seeded from the last tick alone. -/
theorem run_one_minute (ex a key key2 : String) (t0 : Tick) (rest : List Tick)
    (tN : Tick) (h0 : minute_bucket t0.ts = some key)
    (hrest : ∀ t ∈ rest, minute_bucket t.ts = some key)
    (hN : minute_bucket tN.ts = some key2) (hne : key2 ≠ key) :
    (addsFrom MinuteAverager.empty ex a (t0 :: rest ++ [tN])).series a =
      some [(rest.foldl AccState.updateTick (AccState.startTick key ex a t0)).finalize] ∧
    (addsFrom MinuteAverager.empty ex a (t0 :: rest ++ [tN])).state a =
      some (AccState.startTick key2 ex a tN) := by
  have hfresh := addTick_fresh MinuteAverager.empty ex a key t0 h0 (by rfl)
  set m1 : MinuteAverager :=
    ⟨fun k => if k = a then some (AccState.startTick key ex a t0) else MinuteAverager.empty.state k,
     fun k => if k = a then some ((MinuteAverager.empty.series a).getD [])
       else MinuteAverager.empty.series k⟩ with hm1
  have hone : ∀ (M : MinuteAverager) (u : Tick),
      addsFrom M ex a [u] = (M.addTick ex a u).getD M := by
    intro M u; simp [addsFrom]
  have hrun : addsFrom MinuteAverager.empty ex a (t0 :: rest ++ [tN]) =
      addsFrom (addsFrom m1 ex a rest) ex a [tN] := by
    simp [addsFrom, hfresh, List.foldl_append]
  have hmid := addsFrom_same_bucket ex a key rest hrest m1
    (AccState.startTick key ex a t0) []
    (by simp [hm1]) (by simp [AccState.startTick, AccState.start])
    (by simp [hm1, MinuteAverager.empty])
  set st1 := rest.foldl AccState.updateTick (AccState.startTick key ex a t0) with hst1
  have hst1key : st1.key = key := by
    rw [hst1, foldl_updateTick]; simp [AccState.startTick, AccState.start]
  have hroll := addTick_roll (addsFrom m1 ex a rest) ex a key2 tN st1 hN
    hmid.1 (by rw [hst1key]; exact fun h => hne h.symm)
  constructor
  · rw [hrun, hone, hroll]
    simp [hmid.2, truncate1440]
  · rw [hrun, hone, hroll]
    simp

/-- One step preserves "every open accumulator has `n ≥ 1`". -/
theorem stateInv_step (m : MinuteAverager)
    (h : ∀ k acc, m.state k = some acc → 1 ≤ acc.n) (op : Op) :
    ∀ k acc, (stepOp m op).state k = some acc → 1 ≤ acc.n := by
  intro k acc hk
  cases op with
  | replace a rows =>
      simp only [stepOp, MinuteAverager.replace_series] at hk
      by_cases hka : k = a
      · simp [hka] at hk
      · simp [hka] at hk; exact h k acc hk
  | add ex a t =>
      rcases hb : minute_bucket t.ts with _ | key
      · simp only [stepOp, MinuteAverager.addTick, MinuteAverager.add, hb,
          Option.getD_none] at hk
        exact h k acc hk
      · rcases hst : m.state a with _ | st
        · rw [stepOp, addTick_fresh m ex a key t hb hst, Option.getD_some] at hk
          by_cases hka : k = a
          · simp only [hka, if_true, eq_self_iff_true, Option.some.injEq] at hk
            subst hk
            simp [AccState.startTick, AccState.start]
          · simp [hka] at hk; exact h k acc hk
        · by_cases hkey : st.key = key
          · rw [stepOp, addTick_same m ex a key t st hb hst hkey,
              Option.getD_some] at hk
            by_cases hka : k = a
            · simp only [hka, if_true, eq_self_iff_true, Option.some.injEq] at hk
              subst hk
              simp [AccState.updateTick, AccState.update]
            · simp [hka] at hk; exact h k acc hk
          · rw [stepOp, addTick_roll m ex a key t st hb hst hkey,
              Option.getD_some] at hk
            by_cases hka : k = a
            · simp only [hka, if_true, eq_self_iff_true, Option.some.injEq] at hk
              subst hk
              simp [AccState.startTick, AccState.start]
            · simp [hka] at hk; exact h k acc hk

/-- Every accumulator reachable through any sequence of operations has a
tick count of at least 1. -/
theorem stateInv_run (ops : List Op) :
    ∀ k acc, (runOps ops).state k = some acc → 1 ≤ acc.n := by
  suffices h : ∀ (l : List Op) (m : MinuteAverager),
      (∀ k acc, m.state k = some acc → 1 ≤ acc.n) →
      ∀ k acc, (l.foldl stepOp m).state k = some acc → 1 ≤ acc.n by
    exact h ops MinuteAverager.empty (by intro k acc hk; simp [MinuteAverager.empty] at hk)
  intro l
  induction l with
  | nil => intro m hm; simpa using hm
  | cons op rest ih =>
      intro m hm
      exact ih (stepOp m op) (stateInv_step m hm op)

/-- One step preserves the 1440-record cap, provided a `replace` installs
at most 1440 rows. -/
theorem seriesCap_step (m : MinuteAverager)
    (h : ∀ k, seriesLen m k ≤ 1440) (op : Op) (hop : opBounded op) :
    ∀ k, seriesLen (stepOp m op) k ≤ 1440 := by
  intro k
  cases op with
  | replace a rows =>
      simp only [stepOp, MinuteAverager.replace_series, seriesLen]
      by_cases hka : k = a
      · simpa [hka] using hop
      · simpa [hka] using h k
  | add ex a t =>
      rcases hb : minute_bucket t.ts with _ | key
      · simp only [stepOp, MinuteAverager.addTick, MinuteAverager.add, hb,
          Option.getD_none]
        exact h k
      · rcases hst : m.state a with _ | st
        · rw [stepOp, addTick_fresh m ex a key t hb hst, Option.getD_some]
          by_cases hka : k = a
          · simpa [seriesLen, hka] using h a
          · simpa [seriesLen, hka] using h k
        · by_cases hkey : st.key = key
          · rw [stepOp, addTick_same m ex a key t st hb hst hkey, Option.getD_some]
            by_cases hka : k = a
            · simpa [seriesLen, hka] using h a
            · simpa [seriesLen, hka] using h k
          · rw [stepOp, addTick_roll m ex a key t st hb hst hkey, Option.getD_some]
            by_cases hka : k = a
            · simp [seriesLen, hka, truncate1440_length]
            · simpa [seriesLen, hka] using h k

/-- Insertion keeps a list nonempty. -/
theorem insertLe_ne_nil {α : Type} (le : α → α → Bool) (x : α) (l : List α) :
    insertLe le x l ≠ [] := by
  cases l with
  | nil => simp [insertLe]
  | cons y ys => simp only [insertLe]; split <;> simp

/-- The modelled stable sort returns `[]` exactly on `[]`. -/
theorem sortLe_eq_nil_iff {α : Type} (le : α → α → Bool) (l : List α) :
    sortLe le l = [] ↔ l = [] := by
  cases l with
  | nil => simp [sortLe]
  | cons x xs => simp only [sortLe]; simpa using insertLe_ne_nil le x (sortLe le xs)

/-! ## Claim theorems -/

/-- C10: every accumulator reachable through `add` (under any sequence of
`add`/`replace_series` operations) has `n ≥ 1`, and the divisor
`max(1, n)` used by `_finalize` is at least 1 and in fact equals `n`, so
`_finalize` never divides by zero. -/
theorem C10_finalize_divisor (ops : List Op) (k : String) (acc : AccState)
    (h : (runOps ops).state k = some acc) :
    1 ≤ finalizeDen acc ∧ finalizeDen acc = acc.n := by
  have h1 := stateInv_run ops k acc h
  unfold finalizeDen
  exact ⟨le_max_left 1 acc.n, Nat.max_eq_right h1⟩

theorem C10_finalize_divisor_witness :
    1 ≤ finalizeDen ⟨"2025-08-28T14:03:00Z", "coinbase", "ADA", 1, 0, 0, 0, 0, 0, 0, 0, 0⟩ ∧
    finalizeDen ⟨"2025-08-28T14:03:00Z", "coinbase", "ADA", 1, 0, 0, 0, 0, 0, 0, 0, 0⟩ =
      (AccState.mk "2025-08-28T14:03:00Z" "coinbase" "ADA" 1 0 0 0 0 0 0 0 0).n :=
  C10_finalize_divisor
    [Op.add "coinbase" "ADA" ⟨"2025-08-28T14:03:07Z", none, none, none, none, none, none, none, none⟩]
    "ADA" ⟨"2025-08-28T14:03:00Z", "coinbase", "ADA", 1, 0, 0, 0, 0, 0, 0, 0, 0⟩ (by decide)

set_option maxRecDepth 40000 in
/-- C2 (counterexample): `replace_series` installs its rows verbatim, so a
single `replace_series` with 1441 rows leaves a series longer than 1440 —
the claimed invariant fails over sequences that include `replace_series`. -/
theorem C2_cap_counterexample :
    1440 < seriesLen (runOps [Op.replace "k" (List.replicate 1441 sampleRec)]) "k" := by
  decide

/-- C2 (amended): provided every `replace_series` installs at most 1440
rows, every key's series stays at 1440 records or fewer under any sequence
of operations; and the cap applied on rollover keeps exactly the most
recent `min(len, 1440)` records (it drops only from the front). -/
theorem C2_cap_amended :
    (∀ ops : List Op, (∀ op ∈ ops, opBounded op) →
      ∀ k, seriesLen (runOps ops) k ≤ 1440) ∧
    (∀ l : List AverageRecord,
      (truncate1440 l).length = min l.length 1440 ∧
      List.IsSuffix (truncate1440 l) l) := by
  constructor
  · intro ops hops k
    suffices h : ∀ (l : List Op) (m : MinuteAverager), (∀ op ∈ l, opBounded op) →
        (∀ j, seriesLen m j ≤ 1440) → ∀ j, seriesLen (l.foldl stepOp m) j ≤ 1440 by
      exact h ops MinuteAverager.empty hops
        (by intro j; simp [seriesLen, MinuteAverager.empty]) k
    intro l
    induction l with
    | nil => intro m _ hm; simpa using hm
    | cons op rest ih =>
        intro m hl hm
        exact ih (stepOp m op) (fun o ho => hl o (by simp [ho]))
          (seriesCap_step m hm op (hl op (by simp)))
  · intro l
    exact ⟨truncate1440_length l, truncate1440_suffix l⟩

theorem C2_cap_amended_witness :
    seriesLen (runOps [Op.replace "k" [sampleRec]]) "k" ≤ 1440 ∧
    (truncate1440 [sampleRec]).length = min [sampleRec].length 1440 ∧
    List.IsSuffix (truncate1440 [sampleRec]) [sampleRec] :=
  ⟨C2_cap_amended.1 [Op.replace "k" [sampleRec]] (by simp [opBounded]) "k",
   C2_cap_amended.2 [sampleRec]⟩

/-- C9: `replace_series(key, rows)` followed by `add` for the same key
starts a completely fresh accumulator seeded only from that tick (`n = 1`,
each sum the tick's own value-or-zero), and the installed rows are still
the key's series, untouched. -/
theorem C9_replace_then_add (m : MinuteAverager) (key : String)
    (rows : List AverageRecord) (ex : String) (t : Tick) (b : String)
    (hb : minute_bucket t.ts = some b) :
    (stepOp (m.replace_series key rows) (Op.add ex key t)).state key =
      some (AccState.startTick b ex key t) ∧
    (stepOp (m.replace_series key rows) (Op.add ex key t)).series key = some rows := by
  have hst : (m.replace_series key rows).state key = none := by
    simp [MinuteAverager.replace_series]
  rw [stepOp, addTick_fresh (m.replace_series key rows) ex key b t hb hst,
    Option.getD_some]
  constructor <;> simp [MinuteAverager.replace_series]

theorem C9_replace_then_add_witness :
    (stepOp (MinuteAverager.empty.replace_series "coinbase:ADA" [sampleRec])
        (Op.add "coinbase" "coinbase:ADA"
          ⟨"2025-08-28T14:04:02Z", some 3, none, none, none, none, none, none, none⟩)).state
      "coinbase:ADA" =
      some (AccState.startTick "2025-08-28T14:04:00Z" "coinbase" "coinbase:ADA"
        ⟨"2025-08-28T14:04:02Z", some 3, none, none, none, none, none, none, none⟩) ∧
    (stepOp (MinuteAverager.empty.replace_series "coinbase:ADA" [sampleRec])
        (Op.add "coinbase" "coinbase:ADA"
          ⟨"2025-08-28T14:04:02Z", some 3, none, none, none, none, none, none, none⟩)).series
      "coinbase:ADA" = some [sampleRec] :=
  C9_replace_then_add MinuteAverager.empty "coinbase:ADA" [sampleRec] "coinbase"
    ⟨"2025-08-28T14:04:02Z", some 3, none, none, none, none, none, none, none⟩
    "2025-08-28T14:04:00Z" (by decide)

/-- C5 (counterexample): `add` with a timestamp `fromisoformat` cannot
parse raises (modelled as `none`) instead of degrading gracefully. -/
theorem C5_add_raises_counterexample :
    MinuteAverager.empty.add "coinbase" "ADA" "not-a-timestamp"
      none none none none none none none none = none := rfl

/-- C5 (amended): `add` completes for every input whose timestamp parses,
and null metric values degrade to a zero contribution (`_update` only
bumps `n`; `_start` seeds the sums with 0); a malformed timestamp makes
`minute_bucket` raise before any mutation. -/
theorem C5_add_total_amended :
    (∀ (m : MinuteAverager) (ex a : String) (t : Tick),
      (minute_bucket t.ts).isSome → (m.addTick ex a t).isSome) ∧
    (∀ (st : AccState) (ts : String),
      AccState.updateTick st ⟨ts, none, none, none, none, none, none, none, none⟩ =
        { st with n := st.n + 1 }) ∧
    (∀ (key ex a ts : String),
      AccState.startTick key ex a ⟨ts, none, none, none, none, none, none, none, none⟩ =
        ⟨key, ex, a, 1, 0, 0, 0, 0, 0, 0, 0, 0⟩) := by
  refine ⟨?_, ?_, ?_⟩
  · intro m ex a t h
    rcases Option.isSome_iff_exists.mp h with ⟨key, hb⟩
    rcases hst : m.state a with _ | st
    · rw [addTick_fresh m ex a key t hb hst]; rfl
    · by_cases hkey : st.key = key
      · rw [addTick_same m ex a key t st hb hst hkey]; rfl
      · rw [addTick_roll m ex a key t st hb hst hkey]; rfl
  · intro st ts; simp [AccState.updateTick, AccState.update, addOpt]
  · intro key ex a ts; simp [AccState.startTick, AccState.start]

theorem C5_add_total_amended_witness :
    (MinuteAverager.empty.addTick "coinbase" "ADA"
      ⟨"2025-08-28T14:03:07Z", none, none, none, none, none, none, none, none⟩).isSome :=
  C5_add_total_amended.1 MinuteAverager.empty "coinbase" "ADA"
    ⟨"2025-08-28T14:03:07Z", none, none, none, none, none, none, none, none⟩ (by decide)

/-- C7 (counterexample): two timestamps denoting the very same UTC minute
(indeed the same instant) through different UTC offsets map to different
buckets, because `minute_bucket` discards the offset instead of converting
to UTC. -/
theorem C7_same_minute_counterexample :
    (parseTs "2025-08-28T14:03:07+00:00").map utcMinuteIndex =
      (parseTs "2025-08-28T19:03:07+05:00").map utcMinuteIndex ∧
    (parseTs "2025-08-28T14:03:07+00:00").isSome ∧
    minute_bucket "2025-08-28T14:03:07+00:00" ≠
      minute_bucket "2025-08-28T19:03:07+05:00" := by
  decide

/-- C7 (amended): the bucket depends only on the clock fields
year/month/day/hour/minute of the parsed timestamp — seconds, fractional
seconds and the UTC offset are discarded — so any two parseable timestamps
agreeing on those five fields map to the same bucket string. -/
theorem C7_bucket_amended (s1 s2 : String) (d1 d2 : DT)
    (h1 : parseTs s1 = some d1) (h2 : parseTs s2 = some d2)
    (hy : d1.year = d2.year) (hmo : d1.month = d2.month) (hd : d1.day = d2.day)
    (hh : d1.hour = d2.hour) (hmi : d1.minute = d2.minute) :
    minute_bucket s1 = minute_bucket s2 := by
  simp [minute_bucket, h1, h2, bucketFmt, hy, hmo, hd, hh, hmi]

theorem C7_bucket_amended_witness :
    minute_bucket "2025-08-28T14:03:07Z" = minute_bucket "2025-08-28T14:03:59.250+00:00" :=
  C7_bucket_amended "2025-08-28T14:03:07Z" "2025-08-28T14:03:59.250+00:00"
    ⟨2025, 8, 28, 14, 3, 7, 0, some 0⟩ ⟨2025, 8, 28, 14, 3, 59, 250000, some 0⟩
    (by decide) (by decide) rfl rfl rfl rfl rfl

/-- Heads of the modelled sort: null best quote iff the side is empty. -/
theorem sortLe_head_map_none_iff (le : (ℚ × ℚ) → (ℚ × ℚ) → Bool)
    (l : List (ℚ × ℚ)) :
    ((sortLe le l).head?.map (fun p => p.1)) = none ↔ l = [] := by
  rw [Option.map_eq_none', List.head?_eq_none_iff]
  exact sortLe_eq_nil_iff le l

/-- C1 (code evaluated at the failing input): `add` keys the accumulator
and series dicts by the bare `asset` argument, while `init_day` seeds and
the upload reads the key `f"{ex_name}:{asset}"`.  Two exchanges' ticks for
the same asset therefore merge into one accumulator (here labelled
"coinbase" yet counting the kraken tick, `n = 2`), the seeded
"coinbase:ADA" series never receives finalized minutes, and the kraken
upload reads an empty list. -/
theorem C1_series_key_mismatch :
    c1Run.state "ADA" =
      some ⟨"2025-08-28T14:03:00Z", "coinbase", "ADA", 2, 100, 0, 0, 0, 0, 0, 0, 0⟩ ∧
    c1Run.state (seriesKey "coinbase" "ADA") = none ∧
    c1Run.series "ADA" = some [] ∧
    uploadRows c1Run "coinbase" "ADA" = [sampleRec] ∧
    uploadRows c1Run "kraken" "ADA" = [] := by
  decide

/-- C3 (counterexample): with an empty bids side but a nonempty asks side,
the coinbase adapter still reports `best_ask`, so the three fields are not
all null. -/
theorem C3_partial_quote_counterexample :
    (coinbaseBook [] [(101, 1)]).bids = [] ∧
    (coinbaseBook [] [(101, 1)]).best_ask = some 101 ∧
    ¬ (coinbaseBook [] [(101, 1)]).best_ask = none := by
  decide

/-- C3 (amended): for the coinbase, kraken and binanceus adapters, an
empty side forces `price = None`, and each best quote is null exactly when
its own side is empty — the best quote of a nonempty side is still
reported even when the other side is empty. -/
theorem C3_empty_side_amended (bids asks : List (ℚ × ℚ))
    (h : bids = [] ∨ asks = []) :
    ((coinbaseBook bids asks).price = none ∧ (krakenBook bids asks).price = none ∧
      (binanceusBook bids asks).price = none) ∧
    ((coinbaseBook bids asks).best_bid = none ↔ bids = []) ∧
    ((krakenBook bids asks).best_bid = none ↔ bids = []) ∧
    ((binanceusBook bids asks).best_bid = none ↔ bids = []) ∧
    ((coinbaseBook bids asks).best_ask = none ↔ asks = []) ∧
    ((krakenBook bids asks).best_ask = none ↔ asks = []) ∧
    ((binanceusBook bids asks).best_ask = none ↔ asks = []) := by
  refine ⟨?_, ?_, ?_, ?_, ?_, ?_, ?_⟩
  · rcases h with hb | ha
    · subst hb
      refine ⟨?_, ?_, ?_⟩ <;>
        simp [coinbaseBook, krakenBook, binanceusBook, sortBids, sortLe, truthyQ]
    · subst ha
      rcases hbb : (sortBids bids).head? with _ | z <;>
        simp [coinbaseBook, krakenBook, binanceusBook, sortAsks, sortLe, hbb, truthyQ]
  · simpa [coinbaseBook, sortBids] using sortLe_head_map_none_iff _ bids
  · simpa [krakenBook, sortBids] using sortLe_head_map_none_iff _ bids
  · simpa [binanceusBook, sortBids] using sortLe_head_map_none_iff _ bids
  · simpa [coinbaseBook, sortAsks] using sortLe_head_map_none_iff _ asks
  · simpa [krakenBook, sortAsks] using sortLe_head_map_none_iff _ asks
  · simpa [binanceusBook, sortAsks] using sortLe_head_map_none_iff _ asks

theorem C3_empty_side_amended_witness :
    (((coinbaseBook [] [((101:ℚ), (1:ℚ))]).price = none ∧
      (krakenBook [] [((101:ℚ), (1:ℚ))]).price = none ∧
      (binanceusBook [] [((101:ℚ), (1:ℚ))]).price = none) ∧
    ((coinbaseBook [] [((101:ℚ), (1:ℚ))]).best_bid = none ↔ ([] : List (ℚ × ℚ)) = []) ∧
    ((krakenBook [] [((101:ℚ), (1:ℚ))]).best_bid = none ↔ ([] : List (ℚ × ℚ)) = []) ∧
    ((binanceusBook [] [((101:ℚ), (1:ℚ))]).best_bid = none ↔ ([] : List (ℚ × ℚ)) = []) ∧
    ((coinbaseBook [] [((101:ℚ), (1:ℚ))]).best_ask = none ↔ [((101:ℚ), (1:ℚ))] = []) ∧
    ((krakenBook [] [((101:ℚ), (1:ℚ))]).best_ask = none ↔ [((101:ℚ), (1:ℚ))] = []) ∧
    ((binanceusBook [] [((101:ℚ), (1:ℚ))]).best_ask = none ↔ [((101:ℚ), (1:ℚ))] = [])) :=
  C3_empty_side_amended [] [((101:ℚ), (1:ℚ))] (Or.inl rfl)

/-- C8: `layered_avg_spread` returns null exactly when
`min(depth, len(bids), len(asks)) = 0`; otherwise it returns the mean of
the top-`d` per-level spreads; on the worked example at depth 2 it
returns 2. -/
theorem C8_layered_spread :
    (∀ (bids asks : List (ℚ × ℚ)) (depth : Nat),
      (layered_avg_spread bids asks depth = none ↔
        min depth (min bids.length asks.length) = 0) ∧
      (0 < min depth (min bids.length asks.length) →
        layered_avg_spread bids asks depth =
          some ((((List.range (min depth (min bids.length asks.length))).map
            (fun i => (asks.getD i (0, 0)).1 - (bids.getD i (0, 0)).1)).sum) /
              ((min depth (min bids.length asks.length) : ℕ) : ℚ)))) ∧
    layered_avg_spread [(100, 1), (99, 1)] [(101, 1), (102, 1)] 2 = some 2 := by
  constructor
  · intro bids asks depth
    constructor
    · simp only [layered_avg_spread]
      split <;> simp_all
    · intro hd
      simp only [layered_avg_spread]
      rw [if_neg (by omega)]
  · simp only [layered_avg_spread]
    norm_num [List.range_succ]

theorem C8_layered_spread_witness :
    layered_avg_spread [((100:ℚ), (1:ℚ)), (99, 1)] [(101, 1), (102, 1)] 2 =
      some ((((List.range (min 2 (min
          ([((100:ℚ), (1:ℚ)), (99, 1)]).length ([((101:ℚ), (1:ℚ)), (102, 1)]).length))).map
        (fun i => (([((101:ℚ), (1:ℚ)), (102, 1)]).getD i (0, 0)).1 -
          (([((100:ℚ), (1:ℚ)), (99, 1)]).getD i (0, 0)).1)).sum) /
          ((min 2 (min ([((100:ℚ), (1:ℚ)), (99, 1)]).length
            ([((101:ℚ), (1:ℚ)), (102, 1)]).length) : ℕ) : ℚ)) :=
  (C8_layered_spread.1 [((100:ℚ), (1:ℚ)), (99, 1)] [(101, 1), (102, 1)] 2).2 (by decide)

/-- C4: for any run of `add` calls whose timestamps share one minute
bucket, closed by a first tick of a different minute, the record finalized
at rollover averages every metric over the one shared count `n` = the
total number of ticks of the minute; a null metric value contributes 0 to
its sum but still counts in `n` (so `price_avg` is the sum of the non-null
prices divided by `n`). -/
theorem C4_minute_mean (ex a b b2 : String) (t0 : Tick) (rest : List Tick)
    (tN : Tick) (h0 : minute_bucket t0.ts = some b)
    (hrest : ∀ t ∈ rest, minute_bucket t.ts = some b)
    (hN : minute_bucket tN.ts = some b2) (hne : b2 ≠ b) :
    (addsFrom MinuteAverager.empty ex a (t0 :: rest ++ [tN])).series a =
      some [AverageRecord.mk b ex a
        (sumOpt ((t0 :: rest).map (·.price)) / ((rest.length + 1 : ℕ) : ℚ))
        (sumOpt ((t0 :: rest).map (·.spread_raw)) / ((rest.length + 1 : ℕ) : ℚ))
        (sumOpt ((t0 :: rest).map (·.s5)) / ((rest.length + 1 : ℕ) : ℚ))
        (sumOpt ((t0 :: rest).map (·.s20)) / ((rest.length + 1 : ℕ) : ℚ))
        (sumOpt ((t0 :: rest).map (·.s50)) / ((rest.length + 1 : ℕ) : ℚ))
        (sumOpt ((t0 :: rest).map (·.s100)) / ((rest.length + 1 : ℕ) : ℚ))
        (sumOpt ((t0 :: rest).map (·.bidv50)) / ((rest.length + 1 : ℕ) : ℚ))
        (sumOpt ((t0 :: rest).map (·.askv50)) / ((rest.length + 1 : ℕ) : ℚ))] := by
  have h := run_one_minute ex a b b2 t0 rest tN h0 hrest hN hne
  rw [h.1, foldl_updateTick]
  simp only [AccState.finalize, finalizeDen, AccState.startTick, AccState.start,
    Option.some.injEq, List.cons.injEq, and_true, List.map_cons, sumOpt_cons,
    AverageRecord.mk.injEq]
  have hlen : (0 : ℚ) ≤ (rest.length : ℚ) := Nat.cast_nonneg _
  have hmaxq : (1 : ℚ) ⊔ (1 + (rest.length : ℚ)) = (rest.length : ℚ) + 1 := by
    rw [sup_eq_right.mpr (by linarith)]
    ring
  refine ⟨trivial, trivial, trivial, ?_, ?_, ?_, ?_, ?_, ?_, ?_, ?_⟩ <;>
    (push_cast; rw [hmaxq]; try ring)

theorem C4_minute_mean_witness :
    let t0 : Tick := ⟨"2025-08-28T14:03:07Z", some 100, none, none, none, none, none, none, none⟩
    let tN : Tick := ⟨"2025-08-28T14:04:00Z", none, none, none, none, none, none, none, none⟩
    (addsFrom MinuteAverager.empty "coinbase" "ADA"
        (t0 :: ([] : List Tick) ++ [tN])).series "ADA" =
      some [AverageRecord.mk "2025-08-28T14:03:00Z" "coinbase" "ADA"
        (sumOpt ((t0 :: ([] : List Tick)).map (·.price)) / ((([] : List Tick).length + 1 : ℕ) : ℚ))
        (sumOpt ((t0 :: ([] : List Tick)).map (·.spread_raw)) / ((([] : List Tick).length + 1 : ℕ) : ℚ))
        (sumOpt ((t0 :: ([] : List Tick)).map (·.s5)) / ((([] : List Tick).length + 1 : ℕ) : ℚ))
        (sumOpt ((t0 :: ([] : List Tick)).map (·.s20)) / ((([] : List Tick).length + 1 : ℕ) : ℚ))
        (sumOpt ((t0 :: ([] : List Tick)).map (·.s50)) / ((([] : List Tick).length + 1 : ℕ) : ℚ))
        (sumOpt ((t0 :: ([] : List Tick)).map (·.s100)) / ((([] : List Tick).length + 1 : ℕ) : ℚ))
        (sumOpt ((t0 :: ([] : List Tick)).map (·.bidv50)) / ((([] : List Tick).length + 1 : ℕ) : ℚ))
        (sumOpt ((t0 :: ([] : List Tick)).map (·.askv50)) / ((([] : List Tick).length + 1 : ℕ) : ℚ))] := by
  intro t0 tN
  exact C4_minute_mean "coinbase" "ADA" "2025-08-28T14:03:00Z" "2025-08-28T14:04:00Z"
    t0 [] tN (by decide) (by simp) (by decide) (by decide)

/-- C6: 61 ticks at one-second intervals for one key, the 61st being the
first of the next minute, leave exactly one finalized record (averaged
over `n = 60`: the single non-null price 1 gives `price_avg = 1/60`) and a
still-open accumulator with `n = 1` for the second minute. -/
theorem C6_sixty_one_ticks :
    (addsFrom MinuteAverager.empty "coinbase" "ADA" ticksC6).series "ADA" =
      some [AccState.finalize
        ⟨"2025-08-28T14:03:00Z", "coinbase", "ADA", 60, 1, 0, 0, 0, 0, 0, 0, 0⟩] ∧
    AccState.finalize ⟨"2025-08-28T14:03:00Z", "coinbase", "ADA", 60, 1, 0, 0, 0, 0, 0, 0, 0⟩ =
      ⟨"2025-08-28T14:03:00Z", "coinbase", "ADA", 1 / 60, 0, 0, 0, 0, 0, 0, 0⟩ ∧
    (addsFrom MinuteAverager.empty "coinbase" "ADA" ticksC6).state "ADA" =
      some ⟨"2025-08-28T14:04:00Z", "coinbase", "ADA", 1, 1, 0, 0, 0, 0, 0, 0, 0⟩ := by
  have hsplit : ticksC6 =
      tickC6 0 :: ((List.range 59).map fun i => tickC6 (i + 1)) ++ [tickC6 60] := by decide
  have h0 : minute_bucket (tickC6 0).ts = some "2025-08-28T14:03:00Z" := by decide
  have hrest : ∀ t ∈ (List.range 59).map (fun i => tickC6 (i + 1)),
      minute_bucket t.ts = some "2025-08-28T14:03:00Z" := by decide
  have hN : minute_bucket (tickC6 60).ts = some "2025-08-28T14:04:00Z" := by decide
  have hne : "2025-08-28T14:04:00Z" ≠ "2025-08-28T14:03:00Z" := by decide
  have h := run_one_minute "coinbase" "ADA" "2025-08-28T14:03:00Z" "2025-08-28T14:04:00Z"
    (tickC6 0) ((List.range 59).map fun i => tickC6 (i + 1)) (tickC6 60) h0 hrest hN hne
  have hstart : AccState.startTick "2025-08-28T14:03:00Z" "coinbase" "ADA" (tickC6 0) =
      ⟨"2025-08-28T14:03:00Z", "coinbase", "ADA", 1, 1, 0, 0, 0, 0, 0, 0, 0⟩ := by decide
  have hacc : ((List.range 59).map fun i => tickC6 (i + 1)).foldl AccState.updateTick
      (AccState.startTick "2025-08-28T14:03:00Z" "coinbase" "ADA" (tickC6 0)) =
      ⟨"2025-08-28T14:03:00Z", "coinbase", "ADA", 60, 1, 0, 0, 0, 0, 0, 0, 0⟩ := by
    rw [foldl_updateTick, hstart]
    have e1 : sumOpt ((((List.range 59).map fun i => tickC6 (i + 1)).map (·.price))) = 0 := by decide
    have e2 : sumOpt ((((List.range 59).map fun i => tickC6 (i + 1)).map (·.spread_raw))) = 0 := by decide
    have e3 : sumOpt ((((List.range 59).map fun i => tickC6 (i + 1)).map (·.s5))) = 0 := by decide
    have e4 : sumOpt ((((List.range 59).map fun i => tickC6 (i + 1)).map (·.s20))) = 0 := by decide
    have e5 : sumOpt ((((List.range 59).map fun i => tickC6 (i + 1)).map (·.s50))) = 0 := by decide
    have e6 : sumOpt ((((List.range 59).map fun i => tickC6 (i + 1)).map (·.s100))) = 0 := by decide
    have e7 : sumOpt ((((List.range 59).map fun i => tickC6 (i + 1)).map (·.bidv50))) = 0 := by decide
    have e8 : sumOpt ((((List.range 59).map fun i => tickC6 (i + 1)).map (·.askv50))) = 0 := by decide
    simp only [e1, e2, e3, e4, e5, e6, e7, e8, List.length_map, List.length_range,
      AccState.mk.injEq]
    norm_num
  refine ⟨?_, ?_, ?_⟩
  · rw [hsplit, h.1, hacc]
  · simp only [AccState.finalize, finalizeDen, AverageRecord.mk.injEq]
    norm_num
  · rw [hsplit, h.2]
    have : AccState.startTick "2025-08-28T14:04:00Z" "coinbase" "ADA" (tickC6 60) =
        ⟨"2025-08-28T14:04:00Z", "coinbase", "ADA", 1, 1, 0, 0, 0, 0, 0, 0, 0⟩ := by decide
    rw [this]
